import Mathlib

/-!
Verification development for the hn-sql ingestion pipeline
(`src/hn-sql/src/hn_sql/`): checkpoint store, remote fetcher,
partitioned parquet writer, consolidation/migration, and the
orchestrating batch loop of `cli._fetch`.

Python sources are shallowly embedded: pure functions become Lean
functions, stateful loops become explicit state passing, the file
system becomes explicit data (lists of files / an association list),
and machine-level concerns (JSON bytes, timestamps) are modelled with
`Int`/`String` as the code only does exact arithmetic on them.
-/

set_option maxRecDepth 10000

namespace HnSql

/-! ## schema.py -/

/-- A JSON scalar as it may appear in the `dead` / `deleted` fields of a raw
HN API payload.  `schema.item_to_row` sanitizes these with
`dead is True or dead == 1`, so booleans and integers must be
distinguishable (Python strings and other values never satisfy either test,
they are folded into `jother`). -/
inductive JBoolVal where
  | jb (b : Bool)
  | ji (n : Int)
  | jother (s : String)
deriving DecidableEq, Repr

/-- A raw item dict from the HN API (`item: dict` in `schema.item_to_row`).
Every field is optional: `item.get(k)` returns `None` for a missing key.
The Python dict key `by` is spelled `by_` (Lean keyword). -/
structure RawItem where
  id : Option Int := none
  type : Option String := none
  by_ : Option String := none
  time : Option Int := none
  text : Option String := none
  url : Option String := none
  title : Option String := none
  score : Option Int := none
  descendants : Option Int := none
  parent : Option Int := none
  kids : Option (List Int) := none
  dead : Option JBoolVal := none
  deleted : Option JBoolVal := none
  poll : Option Int := none
  parts : Option (List Int) := none
deriving DecidableEq, Repr

/-- A schema-compatible row as produced by `schema.item_to_row`.
`time` is the UTC datetime, represented by its unix timestamp (the code
only ever uses `.year` and `.month` of it, recovered by `tsToYear` /
`tsToMonth` below).  `year`/`month` are `none` when `include_partitions`
was false (the dict then has no such keys). -/
structure Row where
  id : Option Int
  type : Option String
  by_ : Option String
  time : Option Int
  text : Option String
  url : Option String
  title : Option String
  score : Option Int
  descendants : Option Int
  parent : Option Int
  kids : Option (List Int)
  dead : Bool
  deleted : Bool
  poll : Option Int
  parts : Option (List Int)
  year : Option Int := none
  month : Option Int := none
deriving DecidableEq, Repr

/-- Proleptic-Gregorian civil date from a count of days since 1970-01-01
(the standard days-to-civil algorithm; Lean's `Int` division truncates
toward zero exactly like the C-family `/` the algorithm is written for,
and all intermediate operands are non-negative after the era shift).
Returns (year, month, day). -/
def civilFromDays (z0 : Int) : Int × Int × Int :=
  let z := z0 + 719468
  let era := (if 0 ≤ z then z else z - 146096) / 146097
  let doe := z - era * 146097
  let yoe := (doe - doe / 1460 + doe / 36524 - doe / 146096) / 365
  let y := yoe + era * 400
  let doy := doe - (365 * yoe + yoe / 4 - yoe / 100)
  let mp := (5 * doy + 2) / 153
  let d := doy - (153 * mp + 2) / 5 + 1
  let m := mp + (if mp < 10 then 3 else -9)
  (y + (if m ≤ 2 then 1 else 0), m, d)

/-- `datetime.fromtimestamp(ts, tz=timezone.utc).year`. -/
def tsToYear (ts : Int) : Int := (civilFromDays (ts.fdiv 86400)).1

/-- `datetime.fromtimestamp(ts, tz=timezone.utc).month`. -/
def tsToMonth (ts : Int) : Int := (civilFromDays (ts.fdiv 86400)).2.1

/-- The sanitization `x is True or x == 1` applied to the `dead` /
`deleted` field of a raw payload (note Python's `True == 1` is already
covered by the `is True` arm). -/
def truthyFlag : Option JBoolVal → Bool
  | some (.jb true) => true
  | some (.ji n) => n == 1
  | _ => false

/-- `schema.item_to_row(item, include_partitions)`.  `item=None` yields
`None`; otherwise the row is built, with tombstoned items (dead or
deleted) keeping only {id, type, by, time, parent, dead, deleted}.
`dt` is `None` when the timestamp is missing **or falsy** (`if ts`
is false for `ts == 0`). -/
def item_to_row (item : Option RawItem) (include_partitions : Bool) : Option Row :=
  match item with
  | none => none
  | some it =>
    let dt : Option Int :=
      match it.time with
      | some ts => if ts ≠ 0 then some ts else none
      | none => none
    let is_dead := truthyFlag it.dead
    let is_deleted := truthyFlag it.deleted
    let row : Row :=
      if is_deleted || is_dead then
        { id := it.id, type := it.type, by_ := it.by_, time := dt,
          text := none, url := none, title := none, score := none,
          descendants := none, parent := it.parent, kids := none,
          dead := is_dead, deleted := is_deleted, poll := none, parts := none }
      else
        { id := it.id, type := it.type, by_ := it.by_, time := dt,
          text := it.text, url := it.url, title := it.title, score := it.score,
          descendants := it.descendants, parent := it.parent, kids := it.kids,
          dead := is_dead, deleted := is_deleted, poll := it.poll, parts := it.parts }
    some (if include_partitions then
            { row with year := dt.map tsToYear, month := dt.map tsToMonth }
          else row)

/-! ## writer.py -/

/-- A parquet file in the output directory.  `writer._flush_flat` writes
`chunk-{n:05d}.parquet` at the directory root, `writer._flush_hive`
writes `year={y}/month={m}/data-{n:05d}.parquet`.  The zero-padded
name is determined by the number, so the file is identified by its
(partition, number) pair together with its row contents. -/
inductive ArchiveFile where
  | flatChunk (n : Nat) (rows : List Row)
  | hiveData (year month : Int) (n : Nat) (rows : List Row)
deriving DecidableEq, Repr

/-- `old_dir.glob("chunk-*.parquet")` membership test. -/
def ArchiveFile.isChunk : ArchiveFile → Bool
  | .flatChunk _ _ => true
  | .hiveData _ _ _ _ => false

/-- `partition_dir.glob("*.parquet")` membership test for the partition
directory `year={y}/month={m}`. -/
def ArchiveFile.inPartition (y m : Int) : ArchiveFile → Bool
  | .flatChunk _ _ => false
  | .hiveData y' m' _ _ => y' == y && m' == m

/-- Whether the file lives under the hive (`year=/month=`) layout. -/
def ArchiveFile.isHive : ArchiveFile → Bool
  | .flatChunk _ _ => false
  | .hiveData _ _ _ _ => true

def ArchiveFile.rows : ArchiveFile → List Row
  | .flatChunk _ rs => rs
  | .hiveData _ _ _ rs => rs

/-- The on-disk path of a file: `none` component = the output-dir root
(flat chunks), `some (y, m)` = the `year=y/month=m` subdirectory,
paired with the file number.  The zero-padded textual names are in
bijection with these pairs. -/
def ArchiveFile.path : ArchiveFile → Option (Int × Int) × Nat
  | .flatChunk n _ => (none, n)
  | .hiveData y m n _ => (some (y, m), n)

/-- `writer.ParquetWriter` state: the chosen layout, the single
in-memory row buffer `self._buffer`, and the files currently present in
the output directory (both the pre-existing ones and those written by
this writer). -/
structure ParquetWriter where
  partition_style : String
  buffer : List Row := []
  disk : List ArchiveFile := []
deriving DecidableEq, Repr

/-- `self._buffer_size = 50_000`. -/
def bufferSize : Nat := 50000

/-- `ParquetWriter._flush_flat`: count the existing `chunk-*` files,
write the whole buffer as `chunk-{count}`.  (Overwrites silently if
that path already exists: the model appends the file regardless; path
freshness is what claim C7 is about.) -/
def ParquetWriter.flush_flat (w : ParquetWriter) : ParquetWriter :=
  let next_num := (w.disk.filter ArchiveFile.isChunk).length
  { w with disk := w.disk ++ [.flatChunk next_num w.buffer] }

/-- The `(row["year"], row["month"])` grouping key used by
`_flush_hive`; `none` when either is null (the row is then dropped from
the hive flush). -/
def rowKey (r : Row) : Option (Int × Int) :=
  match r.year, r.month with
  | some y, some m => some (y, m)
  | _, _ => none

/-- One step of collecting the buffer's distinct partition keys in
first-occurrence order (Python's `defaultdict` populated by a
left-to-right loop preserves insertion order). -/
def firstKeysStep (acc : List (Int × Int)) (r : Row) : List (Int × Int) :=
  match rowKey r with
  | some k => if k ∈ acc then acc else acc ++ [k]
  | none => acc

/-- The distinct partition keys of the buffer in first-occurrence
order. -/
def firstKeys (rows : List Row) : List (Int × Int) :=
  rows.foldl firstKeysStep []

/-- Write one partition group during `_flush_hive`: its rows are the
buffered rows with this (year, month) key, its file number comes from
counting the parquet files already in that partition directory. -/
def flushHiveStep (w' : ParquetWriter) (k : Int × Int) : ParquetWriter :=
  let rows := w'.buffer.filter fun r => rowKey r == some k
  let next_num := (w'.disk.filter (ArchiveFile.inPartition k.1 k.2)).length
  { w' with disk := w'.disk ++ [.hiveData k.1 k.2 next_num rows] }

/-- `ParquetWriter._flush_hive`: group buffered rows by (year, month),
dropping rows where either is null, and write each group into its
partition directory. -/
def ParquetWriter.flush_hive (w : ParquetWriter) : ParquetWriter :=
  (firstKeys w.buffer).foldl flushHiveStep w

/-- `ParquetWriter._flush`: dispatch on the layout, then clear the
buffer; no-op on an empty buffer. -/
def ParquetWriter.flush (w : ParquetWriter) : ParquetWriter :=
  if w.buffer = [] then w
  else
    let w' := if w.partition_style = "hive" then w.flush_hive else w.flush_flat
    { w' with buffer := [] }

/-- `ParquetWriter.add_item`: encode the item (partition columns only
under the hive layout), append to the shared buffer, and flush when the
buffer has reached `self._buffer_size` rows. -/
def ParquetWriter.add_item (w : ParquetWriter) (item : Option RawItem) : ParquetWriter :=
  match item_to_row item (w.partition_style = "hive") with
  | none => w
  | some r =>
    let w := { w with buffer := w.buffer ++ [r] }
    if bufferSize ≤ w.buffer.length then w.flush else w

/-- `ParquetWriter.add_items`. -/
def ParquetWriter.add_items (w : ParquetWriter) (items : List (Option RawItem)) : ParquetWriter :=
  items.foldl ParquetWriter.add_item w

/-- `ParquetWriter.flush_all`. -/
def ParquetWriter.flush_all (w : ParquetWriter) : ParquetWriter := w.flush

/-- The file number `_flush_flat` will use on a directory in the given
state. -/
def flatNextNum (disk : List ArchiveFile) : Nat :=
  (disk.filter ArchiveFile.isChunk).length

/-- The file number `_flush_hive` will use for partition (y, m) on a
directory in the given state. -/
def hiveNextNum (disk : List ArchiveFile) (y m : Int) : Nat :=
  (disk.filter (ArchiveFile.inPartition y m)).length

/-- The chunk numbers already present at the directory root. -/
def chunkNums (disk : List ArchiveFile) : List Nat :=
  disk.filterMap fun f =>
    match f with
    | .flatChunk n _ => some n
    | .hiveData _ _ _ _ => none

/-- The data-file numbers already present in partition (y, m). -/
def hiveNums (disk : List ArchiveFile) (y m : Int) : List Nat :=
  disk.filterMap fun f =>
    match f with
    | .flatChunk _ _ => none
    | .hiveData y' m' n _ => if y' = y ∧ m' = m then some n else none

/-- Claim C7 as stated: from every prior state of the output directory,
a flat flush targets a path that does not already exist, and likewise a
hive flush for every partition it touches. -/
def flushesAlwaysFresh : Prop :=
  ∀ disk : List ArchiveFile,
    ((none : Option (Int × Int)), flatNextNum disk) ∉ disk.map ArchiveFile.path ∧
    ∀ y m : Int, ((some (y, m) : Option (Int × Int)), hiveNextNum disk y m) ∉ disk.map ArchiveFile.path

/-! ## checkpoint.py -/

/-- `checkpoint.Checkpoint` (a dataclass).  Wall-clock timestamps are
opaque strings supplied by the caller of the model (`datetime.now`). -/
structure Checkpoint where
  last_fetched_id : Int
  max_item_id : Int
  items_fetched : Int
  items_written : Int
  started_at : String
  updated_at : String
  partition_style : String
deriving DecidableEq, Repr

/-- `Checkpoint.new(max_item_id, partition_style)`. -/
def Checkpoint.new (max_item_id : Int) (partition_style : String) (now : String) : Checkpoint :=
  { last_fetched_id := 0, max_item_id := max_item_id, items_fetched := 0,
    items_written := 0, started_at := now, updated_at := now,
    partition_style := partition_style }

/-- `Checkpoint.update(last_id, fetched, written)`. -/
def Checkpoint.update (c : Checkpoint) (last_id fetched written : Int) (now : String) : Checkpoint :=
  { c with last_fetched_id := last_id,
           items_fetched := c.items_fetched + fetched,
           items_written := c.items_written + written,
           updated_at := now }

/-- The JSON object parsed from an existing checkpoint file
(`json.loads(self.path.read_text())`).  `partition_style` may be absent
in records written before that field existed. -/
structure CheckpointRecord where
  last_fetched_id : Int
  max_item_id : Int
  items_fetched : Int
  items_written : Int
  started_at : String
  updated_at : String
  partition_style : Option String := none
deriving DecidableEq, Repr

namespace CheckpointManager

/-- `CheckpointManager.load`: `None` when the file does not exist;
otherwise parse and `data.setdefault("partition_style", "hive")`
(backward compat for old checkpoints) before building the dataclass. -/
def load (file : Option CheckpointRecord) : Option Checkpoint :=
  file.map fun d =>
    { last_fetched_id := d.last_fetched_id, max_item_id := d.max_item_id,
      items_fetched := d.items_fetched, items_written := d.items_written,
      started_at := d.started_at, updated_at := d.updated_at,
      partition_style := d.partition_style.getD "hive" }

end CheckpointManager

/-- `json.dumps(asdict(checkpoint), indent=2)`: keys in dataclass field
order, two-space indentation.  The string fields of our checkpoints
contain no characters needing JSON escaping. -/
def dumpCheckpoint (c : Checkpoint) : List Char :=
  ("\x7b\n  \"last_fetched_id\": " ++ toString c.last_fetched_id
    ++ ",\n  \"max_item_id\": " ++ toString c.max_item_id
    ++ ",\n  \"items_fetched\": " ++ toString c.items_fetched
    ++ ",\n  \"items_written\": " ++ toString c.items_written
    ++ ",\n  \"started_at\": \"" ++ c.started_at
    ++ "\",\n  \"updated_at\": \"" ++ c.updated_at
    ++ "\",\n  \"partition_style\": \"" ++ c.partition_style
    ++ "\"\n\x7d").data

/-- A tiny file-system model: an association list from paths to file
contents. -/
def FileSys : Type := List (String × List Char)

instance : DecidableEq FileSys := by
  unfold FileSys
  infer_instance

def FileSys.get : FileSys → String → Option (List Char)
  | [], _ => none
  | (p, c) :: rest, q => if p = q then some c else FileSys.get rest q

def FileSys.set : FileSys → String → List Char → FileSys
  | [], p, c => [(p, c)]
  | (q, c') :: rest, p, c =>
    if q = p then (p, c) :: rest else (q, c') :: FileSys.set rest p c

def FileSys.del : FileSys → String → FileSys
  | [], _ => []
  | (q, c) :: rest, p => if q = p then FileSys.del rest p else (q, c) :: FileSys.del rest p

/-- Primitive file operations a save routine may perform.  `write` is a
plain open-truncate-write (what `Path.write_text` does); `rename` is
the atomic replace primitive (`os.replace`-style). -/
inductive FileOp where
  | write (path : String) (content : List Char)
  | rename (src dst : String)
deriving DecidableEq, Repr

def renameFile (fs : FileSys) (src dst : String) : FileSys :=
  match fs.get src with
  | some c => (fs.del src).set dst c
  | none => fs

/-- Run a list of file operations to completion. -/
def runOps (fs : FileSys) : List FileOp → FileSys
  | [] => fs
  | .write p c :: rest => runOps (fs.set p c) rest
  | .rename s d :: rest => runOps (renameFile fs s d) rest

/-- All prefixes of a content string, shortest first. -/
def contentPrefixes (c : List Char) : List (List Char) :=
  (List.range (c.length + 1)).map fun n => c.take n

/-- Every file-system state observable if the process is interrupted at
any point while executing the operations (or after finishing).  A plain
`write` first truncates the target and then writes, so any prefix of
the new content may be left behind; a `rename` is atomic (before/after
only). -/
def crashStates (fs : FileSys) : List FileOp → List FileSys
  | [] => [fs]
  | .write p c :: rest =>
    fs :: (contentPrefixes c).map (fs.set p ·) ++ crashStates (fs.set p c) rest
  | .rename s d :: rest =>
    fs :: crashStates (renameFile fs s d) rest

/-- The fixed checkpoint path (`CheckpointManager(path="checkpoint.json")`). -/
def checkpointPath : String := "checkpoint.json"

/-- `CheckpointManager.save`: a single direct
`self.path.write_text(json.dumps(asdict(checkpoint), indent=2))` —
no temp file, no rename. -/
def CheckpointManager.saveOps (cp : Checkpoint) : List FileOp :=
  [.write checkpointPath (dumpCheckpoint cp)]

/-- Claim C2 as stated: at no interruption point of a save can a reader
of the checkpoint path observe anything other than the previous content
or the complete new snapshot. -/
def saveIsAtomic : Prop :=
  ∀ (fs : FileSys) (cp : Checkpoint),
    ∀ st ∈ crashStates fs (CheckpointManager.saveOps cp),
      FileSys.get st checkpointPath = FileSys.get fs checkpointPath ∨
      FileSys.get st checkpointPath = some (dumpCheckpoint cp)

/-! ## fetcher.py — `HNFetcher.fetch_item` -/

/-- The outcome of one HTTP attempt against `/item/{id}.json`, as seen
by `fetch_item`'s exception handling: a successful response carrying a
JSON body (possibly `null`), a non-2xx status (raised by
`raise_for_status`), a transient transport failure
(`httpx.TimeoutException` / `ReadError` / `ConnectError`), or an
`asyncio.CancelledError` / `RuntimeError`. -/
inductive RemoteResponse where
  | ok (v : Option RawItem)
  | statusErr (code : Nat)
  | transient
  | cancelledTask
deriving DecidableEq, Repr

/-- An exception propagating out of `fetch_item` to its caller. -/
inductive FetchError where
  | httpStatus (code : Nat)
  | cancelledError
deriving DecidableEq, Repr

deriving instance DecidableEq for Except

/-- What a call to `fetch_item` does: its return value (or the
exception it raises), and the backoff sleeps it performed, in seconds. -/
structure FetchOutcome where
  result : Except FetchError (Option RawItem)
  sleeps : List ℚ
deriving DecidableEq, Repr

namespace HNFetcher

/-- The `for attempt in range(3)` retry loop inside the transient-error
handler of `fetch_item`: sleep `0.5 * (attempt + 1)` seconds, re-check
shutdown, retry the request.  Only transient errors are caught here
(`continue`); a non-2xx status — including 404 — raises
`HTTPStatusError` uncaught, and a cancellation propagates (the sibling
`except` clauses of the outer `try` do not catch exceptions raised
inside this handler).  After three failed attempts: `return None`. -/
def fetch_retries (shutdown : Bool) (script : Nat → RemoteResponse) :
    Nat → Nat → List ℚ → FetchOutcome
  | 0, _, acc => { result := .ok none, sleeps := acc }
  | remaining + 1, attempt, acc =>
    let acc := acc ++ [(1 / 2 : ℚ) * ((attempt : ℚ) + 1)]
    if shutdown then { result := .ok none, sleeps := acc }
    else
      match script (attempt + 1) with
      | .ok v => { result := .ok v, sleeps := acc }
      | .transient => fetch_retries shutdown script remaining (attempt + 1) acc
      | .statusErr c => { result := .error (.httpStatus c), sleeps := acc }
      | .cancelledTask => { result := .error .cancelledError, sleeps := acc }

/-- `HNFetcher.fetch_item(item_id)`.  `script n` is the outcome of the
n-th HTTP attempt for this id (attempt 0 is the initial request).
`shutdown` is the value `self._is_shutdown()` observes during the call
(held fixed: the claims under verification concern runs without a
shutdown race inside a single call). -/
def fetch_item (shutdown : Bool) (script : Nat → RemoteResponse) : FetchOutcome :=
  if shutdown then { result := .ok none, sleeps := [] }
  else
    -- `async with self.semaphore:` admission, then a second shutdown check
    if shutdown then { result := .ok none, sleeps := [] }
    else
      match script 0 with
      | .ok v => { result := .ok v, sleeps := [] }
      | .statusErr c =>
        if c = 404 then { result := .ok none, sleeps := [] }
        else { result := .error (.httpStatus c), sleeps := [] }
      | .cancelledTask => { result := .ok none, sleeps := [] }
      | .transient =>
        if shutdown then { result := .ok none, sleeps := [] }
        else fetch_retries shutdown script 3 0 []

end HNFetcher

/-- Claim C4's "never raises / never surfaces a failure" part as
stated: for every remote behaviour, `fetch_item` returns a value. -/
def fetchItemNeverRaises : Prop :=
  ∀ script : Nat → RemoteResponse,
    ∃ v, (HNFetcher.fetch_item false script).result = .ok v

/-! ## fetcher.py — the concurrency gate (`asyncio.Semaphore`)

`fetch_items` launches one task per requested id; every task runs
`fetch_item`, whose HTTP request happens inside
`async with self.semaphore` where `self.semaphore =
asyncio.Semaphore(concurrency)` is the single semaphore created in
`HNFetcher.__init__`.  The interleaving of the event loop is modelled
as a transition system: a task is `waiting` until the semaphore admits
it, `inflight` while it holds the semaphore (its request is on the
wire), and `done` after release. -/

inductive TaskPhase where
  | waiting
  | inflight
  | done
deriving DecidableEq, Repr

/-- The joint state of the semaphore's free-permit counter and of every
fetch task spawned by one `fetch_items` call. -/
structure SemSystem where
  avail : Nat
  tasks : List TaskPhase
deriving DecidableEq, Repr

/-- Number of requests simultaneously on the wire. -/
def SemSystem.inFlight (s : SemSystem) : Nat :=
  s.tasks.countP (· == TaskPhase.inflight)

/-- `HNFetcher.__init__(concurrency)` + `fetch_items(item_ids)`: the
semaphore starts with `concurrency` permits and one waiting task is
created per id. -/
def HNFetcher.initSystem (concurrency : Nat) (item_ids : List Int) : SemSystem :=
  { avail := concurrency, tasks := item_ids.map fun _ => TaskPhase.waiting }

/-- One scheduler step: a waiting task may acquire the semaphore only
when a permit is free (`asyncio.Semaphore` admission); an in-flight
task may finish its request and release its permit. -/
inductive SemStep : SemSystem → SemSystem → Prop where
  | acquire (s : SemSystem) (i : Nat)
      (h : s.tasks.get? i = some .waiting) (ha : 0 < s.avail) :
      SemStep s { avail := s.avail - 1, tasks := s.tasks.set i .inflight }
  | release (s : SemSystem) (i : Nat)
      (h : s.tasks.get? i = some .inflight) :
      SemStep s { avail := s.avail + 1, tasks := s.tasks.set i .done }

/-- Reachability of scheduler states from a given initial state. -/
inductive SemReachable (init : SemSystem) : SemSystem → Prop where
  | refl : SemReachable init init
  | step {s t : SemSystem} : SemReachable init s → SemStep s t → SemReachable init t

/-! ## cli.py — `_fetch`, the orchestrator batch loop

The remote is a function from id to item-or-absent (an id the server
answers 404 or `null` for is `none`; the fetcher also degrades
exhausted transient failures to `none`, cf. `fetch_item`).  The SIGINT
shutdown event is modelled by the moment it is set, measured in items
processed so far: `cancelAt = some k` means every `shutdown_event.is_set()`
check performed after `k` items have been consumed observes `true`.
`fetch_items` yields in completion order; the model processes a batch's
ids in list order, which is one admissible completion order. -/

/-- `shutdown_event.is_set()` at logical time `t` (items consumed). -/
def eventSet (cancelAt : Option Nat) (t : Nat) : Bool :=
  match cancelAt with
  | none => false
  | some k => k ≤ t

/-- `list(range(a, b))` over `Int`. -/
def intRange (a b : Int) : List Int :=
  (List.range (b - a).toNat).map fun n : Nat => a + (n : Int)

/-- The `async for item_id, item in fetcher.fetch_items(item_ids)` body:
on each yielded pair, first re-check the shutdown event and abandon the
batch if set, else collect the item when it had data.  Returns the
collected `batch_items` and the new logical time. -/
def processItems (remote : Int → Option RawItem) (cancelAt : Option Nat) :
    List Int → Nat → List RawItem → List RawItem × Nat
  | [], t, acc => (acc, t)
  | id :: rest, t, acc =>
    if eventSet cancelAt t then (acc, t)
    else
      match remote id with
      | some it => processItems remote cancelAt rest (t + 1) (acc ++ [it])
      | none => processItems remote cancelAt rest (t + 1) acc

/-- Mutable state of one `_fetch` run: the loop cursor, logical time,
writer, in-memory checkpoint, the persisted checkpoint file, and (for
specification purposes) the id batches handed to the fetcher. -/
structure RunState where
  current : Int
  t : Nat
  writer : ParquetWriter
  cp : Checkpoint
  cpFile : Option Checkpoint
  requested : List (List Int)
deriving Repr

/-- One iteration of the `while current_pos <= max_id` loop body:
request the batch, collect results (possibly abandoned mid-batch on
shutdown), `writer.add_items` when non-empty, then **unconditionally**
`checkpoint.update(batch_end - 1, ...)`, `writer.flush_all()`,
`checkpoint_mgr.save(checkpoint)` and advance the cursor. -/
def batchStep (remote : Int → Option RawItem) (cancelAt : Option Nat)
    (batch_size max_id : Int) (now : String) (s : RunState) : RunState :=
  let batch_end := min (s.current + batch_size) (max_id + 1)
  let ids := intRange s.current batch_end
  let pr := processItems remote cancelAt ids s.t []
  let batch_items := pr.1
  let w := if batch_items.isEmpty then s.writer
           else s.writer.add_items (batch_items.map some)
  let cp := s.cp.update (batch_end - 1) batch_items.length batch_items.length now
  let w := w.flush_all
  { current := batch_end, t := pr.2, writer := w, cp := cp,
    cpFile := some cp, requested := s.requested ++ [ids] }

/-- The batch loop itself (`while current_pos <= max_id and not
shutdown_event.is_set()`), with enough fuel to exhaust the range. -/
def loopAux (remote : Int → Option RawItem) (cancelAt : Option Nat)
    (batch_size max_id : Int) (now : String) : Nat → RunState → RunState
  | 0, s => s
  | fuel + 1, s =>
    if s.current ≤ max_id ∧ eventSet cancelAt s.t = false then
      loopAux remote cancelAt batch_size max_id now fuel
        (batchStep remote cancelAt batch_size max_id now s)
    else s

/-- The start-resolution block of `_fetch` (lines 84–107): an explicit
`--start` (with negative values relative to the API max) takes
precedence and starts a fresh checkpoint that preserves an existing
checkpoint's partition style; otherwise with `--resume` and an existing
checkpoint the run continues at `last_fetched_id + 1` (refreshing
`max_item_id`); otherwise a fresh run from id 1. -/
def resolveStart (startOpt : Option Int) (resume : Bool)
    (cpFile : Option CheckpointRecord) (api_max_id max_id : Int) (now : String) :
    Int × Checkpoint :=
  let existing_style : Option String :=
    (CheckpointManager.load cpFile).map (·.partition_style)
  match startOpt with
  | some v =>
    let start_id := if v < 0 then max 1 (api_max_id + v) else v
    (start_id, Checkpoint.new max_id (existing_style.getD "hive") now)
  | none =>
    match CheckpointManager.load cpFile, resume with
    | some cp, true => (cp.last_fetched_id + 1, { cp with max_item_id := max_id })
    | some _, false => (1, Checkpoint.new max_id (existing_style.getD "hive") now)
    | none, _ => (1, Checkpoint.new max_id (existing_style.getD "hive") now)

/-- A whole `_fetch(concurrency, batch_size, resume, output, start, end)`
run: resolve the start point, create the writer with the checkpoint's
partition style over whatever files already exist in the output
directory, run the batch loop, and on both exit paths (interrupted or
complete) do a final `writer.flush_all(); checkpoint_mgr.save(checkpoint)`. -/
def runFetch (remote : Int → Option RawItem) (cancelAt : Option Nat)
    (batch_size : Int) (resume : Bool) (startOpt endOpt : Option Int)
    (api_max_id : Int) (cpFile : Option CheckpointRecord)
    (initialDisk : List ArchiveFile) (now : String) : RunState :=
  let max_id := endOpt.getD api_max_id
  let sc := resolveStart startOpt resume cpFile api_max_id max_id now
  let start_id := sc.1
  let cp0 := sc.2
  let w0 : ParquetWriter :=
    { partition_style := cp0.partition_style, buffer := [], disk := initialDisk }
  let s0 : RunState :=
    { current := start_id, t := 0, writer := w0, cp := cp0,
      cpFile := CheckpointManager.load cpFile, requested := [] }
  let fuel := (max_id + 1 - start_id).toNat + 1
  let s1 := loopAux remote cancelAt batch_size max_id now fuel s0
  { s1 with writer := s1.writer.flush_all, cpFile := some s1.cp }

/-- Does any archive file on disk contain a row for item `i`? -/
def diskHasId (disk : List ArchiveFile) (i : Int) : Bool :=
  disk.any fun f => f.rows.any fun r => r.id == some i

/-! ## cli.py — `migrate --swap` -/

/-- The payload of a data directory: the original layout's files or the
freshly consolidated file. -/
inductive DirData where
  | oldData
  | newData
deriving DecidableEq, Repr

/-- The directories `migrate` touches (`data/items`, `data/items_v2`,
`data/items_old`) plus the checkpoint's recorded partition style;
`none` means the directory does not exist. -/
structure SwapState where
  itemsDir : Option DirData
  v2Dir : Option DirData
  backupDir : Option DirData
  cpStyle : String
deriving DecidableEq, Repr

/-- The four state-changing steps of the `if swap:` block of `migrate`,
in program order: delete a stale backup, rename the active directory to
the backup, rename the new directory to active, rewrite the
checkpoint's partition style to "flat". -/
def swapStep : Nat → SwapState → SwapState
  | 0, s => { s with backupDir := none }
  | 1, s => { s with backupDir := s.itemsDir, itemsDir := none }
  | 2, s => { s with itemsDir := s.v2Dir, v2Dir := none }
  | 3, s => { s with cpStyle := "flat" }
  | _ + 4, s => s

/-- Run the listed swap steps in order, stopping (with no rollback) at
the step that raises. -/
def migrateSwapAux (failAt : Option Nat) : List Nat → SwapState → SwapState
  | [], st => st
  | i :: rest, st =>
    if failAt = some i then st else migrateSwapAux failAt rest (swapStep i st)

/-- Execute the swap block; `failAt = some i` means step `i` raises
(the `except` clause reports the error and returns, performing no
rollback), so the steps before `i` remain applied and those from `i`
on do not happen.  Renames are atomic: a failing step has no effect. -/
def migrateSwap (s : SwapState) (failAt : Option Nat) : SwapState :=
  migrateSwapAux failAt [0, 1, 2, 3] s

/-- The old layout is fully active: the active directory still has the
original data and the checkpoint still records the original style. -/
def oldFullyActive (s0 s : SwapState) : Prop :=
  s.itemsDir = some .oldData ∧ s.cpStyle = s0.cpStyle

/-- The new layout is fully active: the consolidated data is at the
active path and the checkpoint records the flat style. -/
def newFullyActive (s : SwapState) : Prop :=
  s.itemsDir = some .newData ∧ s.cpStyle = "flat"

/-- Claim C6 as stated: from any post-export state (old data active,
consolidated data written to the new directory), however the swap run
terminates — completing or failing at any step — the system is left
with the old layout or the new layout fully active. -/
def swapIsTransactional : Prop :=
  ∀ (s0 : SwapState), s0.itemsDir = some .oldData → s0.v2Dir = some .newData →
    ∀ failAt : Option Nat,
      oldFullyActive s0 (migrateSwap s0 failAt) ∨ newFullyActive (migrateSwap s0 failAt)

/-! ## Stated claim properties and concrete instances -/

/-- Claim C5 as stated: under the hive layout a group's buffer is
flushed only once it individually reaches the 50,000-row threshold, so
any file an `add_item` call leaves on disk that was not there before
holds at least 50,000 rows. -/
def hiveFlushPerGroupThreshold : Prop :=
  ∀ (w : ParquetWriter) (item : Option RawItem), w.partition_style = "hive" →
    ∀ f ∈ (w.add_item item).disk, f ∈ w.disk ∨ bufferSize ≤ f.rows.length

/-- An item timestamped 2023-05-15 00:00:00 UTC. -/
def itA : RawItem := { id := some 1, type := some "story", time := some 1684108800 }

/-- An item timestamped 2024-12-01 00:00:00 UTC. -/
def itB : RawItem := { id := some 2, type := some "story", time := some 1733011200 }

/-- `item_to_row (some itA) true`. -/
def rowA : Row :=
  { id := some 1, type := some "story", by_ := none, time := some 1684108800,
    text := none, url := none, title := none, score := none, descendants := none,
    parent := none, kids := none, dead := false, deleted := false,
    poll := none, parts := none, year := some 2023, month := some 5 }

/-- `item_to_row (some itB) true`. -/
def rowB : Row :=
  { id := some 2, type := some "story", by_ := none, time := some 1733011200,
    text := none, url := none, title := none, score := none, descendants := none,
    parent := none, kids := none, dead := false, deleted := false,
    poll := none, parts := none, year := some 2024, month := some 12 }

/-- A dead item whose payload nevertheless carries every optional
field. -/
def itTomb : RawItem :=
  { id := some 7, type := some "comment", by_ := some "alice",
    time := some 1733011200, text := some "payload", url := some "u",
    title := some "t", score := some 5, descendants := some 2,
    parent := some 3, kids := some [8, 9], dead := some (.jb true),
    deleted := none, poll := some 1, parts := some [4] }

/-- A hive writer one row short of the flush threshold, all buffered
rows in partition (2023, 5). -/
def wC5 : ParquetWriter :=
  { partition_style := "hive", buffer := List.replicate 49999 rowA, disk := [] }

/-- A remote whose every attempt answers HTTP 500. -/
def script500 : Nat → RemoteResponse := fun _ => .statusErr 500

/-- Two successive checkpoint snapshots and a file system holding the
first. -/
def cpA : Checkpoint :=
  ⟨100, 200, 50, 50, "2024-01-01T00:00:00+00:00", "2024-01-01T01:00:00+00:00", "hive"⟩

def cpB : Checkpoint :=
  ⟨200, 200, 80, 80, "2024-01-01T00:00:00+00:00", "2024-01-02T00:00:00+00:00", "hive"⟩

def fsA : FileSys := [(checkpointPath, dumpCheckpoint cpA)]

/-- Items 1..3 exist remotely, nothing else. -/
def it1 : RawItem := { id := some 1, type := some "story", time := some 1733011200 }

def it2 : RawItem := { id := some 2, type := some "comment", time := some 1733011300 }

def it3 : RawItem := { id := some 3, type := some "comment", time := some 1733011400 }

def remote3 : Int → Option RawItem := fun i =>
  if i = 1 then some it1 else if i = 2 then some it2
  else if i = 3 then some it3 else none

/-- The post-export state `migrate --swap` starts from: original data
active, consolidated data in the new directory, no stale backup. -/
def swapStart : SwapState :=
  { itemsDir := some .oldData, v2Dir := some .newData, backupDir := none, cpStyle := "hive" }

/-- A checkpoint record at id 5 (for the resume witnesses). -/
def recW : CheckpointRecord :=
  ⟨5, 10, 0, 0, "2024-01-01T00:00:00+00:00", "2024-01-01T00:00:00+00:00", some "flat"⟩

/-- An old-format checkpoint record lacking `partition_style`. -/
def recHive : CheckpointRecord :=
  ⟨3, 9, 3, 3, "2024-01-01T00:00:00+00:00", "2024-01-01T00:00:00+00:00", none⟩

/-! ## Theorems -/

/-- C3: for every raw item whose dead or deleted tombstone flag is set
(boolean `true` or integer `1`, the sanitization the code applies), the
encoded row is non-null at most in {id, type, by, time, parent, dead,
deleted}: text, url, title, score, descendants, kids, poll and parts
are null regardless of what the payload contained. -/
theorem C3_tombstone_keeps_minimal_fields (it : RawItem) (inc : Bool)
    (h : truthyFlag it.dead = true ∨ truthyFlag it.deleted = true) :
    ∃ r : Row, item_to_row (some it) inc = some r ∧
      r.text = none ∧ r.url = none ∧ r.title = none ∧ r.score = none ∧
      r.descendants = none ∧ r.kids = none ∧ r.poll = none ∧ r.parts = none := by
  have hb : (truthyFlag it.deleted || truthyFlag it.dead) = true := by
    rcases h with h | h <;> simp [h]
  cases inc <;> simp [item_to_row, hb]

/-- Witness for C3: a concrete dead item carrying a full payload is
stripped down to the allowed fields. -/
theorem C3_tombstone_keeps_minimal_fields_witness :
    ∃ r : Row, item_to_row (some itTomb) true = some r ∧
      r.text = none ∧ r.url = none ∧ r.title = none ∧ r.score = none ∧
      r.descendants = none ∧ r.kids = none ∧ r.poll = none ∧ r.parts = none :=
  C3_tombstone_keeps_minimal_fields itTomb true (Or.inl rfl)

theorem FileSys.get_set (fs : FileSys) (p : String) (c : List Char) :
    FileSys.get (FileSys.set fs p c) p = some c := by
  induction fs with
  | nil => simp [FileSys.set, FileSys.get]
  | cons hd tl ih =>
    obtain ⟨q, c'⟩ := hd
    by_cases hq : q = p
    · simp [FileSys.set, FileSys.get, hq]
    · simp [FileSys.set, FileSys.get, hq, ih]

/-- C2 counterexample: `save` is a direct `write_text` to the final
path, so interrupting it between the truncation and the write leaves an
empty checkpoint file — neither the previous good snapshot nor the new
one.  This refutes the claimed write-to-temp-then-rename atomicity. -/
theorem C2_save_not_atomic : ¬ saveIsAtomic := by
  intro h
  have hmem : FileSys.set fsA checkpointPath [] ∈
      crashStates fsA (CheckpointManager.saveOps cpB) := by
    simp only [CheckpointManager.saveOps, crashStates]
    refine List.mem_cons_of_mem _ (List.mem_append_left _ ?_)
    have h0 : ([] : List Char) ∈ contentPrefixes (dumpCheckpoint cpB) := by
      simp only [contentPrefixes]
      exact List.mem_map.mpr ⟨0, List.mem_range.mpr (Nat.succ_pos _), List.take_zero _⟩
    exact List.mem_map.mpr ⟨[], h0, rfl⟩
  have hdisj := h fsA cpB _ hmem
  rw [FileSys.get_set] at hdisj
  have hold : FileSys.get fsA checkpointPath = some (dumpCheckpoint cpA) := by
    simp [fsA, FileSys.get]
  rcases hdisj with h1 | h1
  · rw [hold] at h1
    exact absurd h1 (by decide)
  · exact absurd h1 (by decide)

/-- C2 amended: every completed `save` is a full-file overwrite that
leaves exactly the new serialized snapshot at the checkpoint path (one
consistent snapshot, never an append); but the write is a direct
`write_text` without a temp-file/rename step, so only a *completed*
save is guaranteed consistent. -/
theorem C2_save_full_overwrite (fs : FileSys) (cp : Checkpoint) :
    FileSys.get (runOps fs (CheckpointManager.saveOps cp)) checkpointPath
      = some (dumpCheckpoint cp) := by
  simp only [CheckpointManager.saveOps, runOps]
  exact FileSys.get_set fs checkpointPath (dumpCheckpoint cp)

/-- C6 counterexample: if the second rename (`items_v2` → `items`)
fails after the first rename moved the active directory away, the
active path no longer exists: neither the old nor the new layout is
active, and no rollback restores the old one. -/
theorem C6_swap_not_transactional : ¬ swapIsTransactional := by
  intro h
  have := h swapStart rfl rfl (some 2)
  simp only [oldFullyActive, newFullyActive] at this
  revert this
  decide

/-- C6 amended: the three swap steps run in order with no rollback.  A
run with no failure ends with the new layout fully active (and the old
data preserved in the backup directory); a failure at or before the
first rename leaves the old layout fully active; but a failure after
the first rename can leave neither layout active (see the
counterexample), so the steps do not form a single logical transition. -/
theorem C6_swap_success_and_early_failure (s0 : SwapState)
    (h1 : s0.itemsDir = some .oldData) (h2 : s0.v2Dir = some .newData) :
    (newFullyActive (migrateSwap s0 none) ∧
      (migrateSwap s0 none).backupDir = some .oldData) ∧
    oldFullyActive s0 (migrateSwap s0 (some 0)) ∧
    oldFullyActive s0 (migrateSwap s0 (some 1)) := by
  obtain ⟨i, v, b, st⟩ := s0
  simp only at h1 h2
  subst h1; subst h2
  refine ⟨⟨?_, ?_⟩, ?_, ?_⟩ <;>
    simp [migrateSwap, migrateSwapAux, swapStep, newFullyActive, oldFullyActive]

/-- Witness for C6's amended statement at the concrete post-export
state. -/
theorem C6_swap_success_and_early_failure_witness :
    (newFullyActive (migrateSwap swapStart none) ∧
      (migrateSwap swapStart none).backupDir = some .oldData) ∧
    oldFullyActive swapStart (migrateSwap swapStart (some 0)) ∧
    oldFullyActive swapStart (migrateSwap swapStart (some 1)) :=
  C6_swap_success_and_early_failure swapStart rfl rfl

theorem path_none_mem_iff (disk : List ArchiveFile) (k : Nat) :
    ((none, k) ∈ disk.map ArchiveFile.path) ↔ k ∈ chunkNums disk := by
  induction disk with
  | nil => simp [chunkNums]
  | cons f rest ih =>
    cases f with
    | flatChunk n rs => simp [chunkNums, ArchiveFile.path, ih, eq_comm]
    | hiveData y m n rs => simp [chunkNums, ArchiveFile.path, ih]

theorem path_some_mem_iff (disk : List ArchiveFile) (y m : Int) (k : Nat) :
    ((some (y, m), k) ∈ disk.map ArchiveFile.path) ↔ k ∈ hiveNums disk y m := by
  induction disk with
  | nil => simp [hiveNums]
  | cons f rest ih =>
    cases f with
    | flatChunk n rs => simp [hiveNums, ArchiveFile.path, ih]
    | hiveData y' m' n rs =>
      by_cases hy : y' = y ∧ m' = m
      · obtain ⟨hy1, hy2⟩ := hy
        subst hy1; subst hy2
        simp [hiveNums, ArchiveFile.path, ih, eq_comm]
      · have hg : (if y' = y ∧ m' = m then some n else none) = none := if_neg hy
        simp only [hiveNums, List.filterMap_cons] at *
        rw [hg]
        simp only [List.map_cons, List.mem_cons, ArchiveFile.path]
        rw [← ih]
        constructor
        · rintro (heq | hmem)
          · injection heq with ha _
            injection ha with hc
            injection hc with h1 h2
            exact absurd ⟨h1.symm, h2.symm⟩ hy
          · exact hmem
        · exact Or.inr

/-- C7 counterexample: a directory whose only chunk file is
`chunk-00001` makes `_flush_flat` count one existing file and target
`chunk-00001` again, overwriting an existing archive file.  The count
equals a fresh number only when the existing numbering is contiguous
from zero. -/
theorem C7_flush_can_overwrite : ¬ flushesAlwaysFresh := by
  intro h
  have := (h [.flatChunk 1 []]).1
  revert this
  decide

/-- C7 amended: on directories whose existing file numbers are exactly
`0..count-1` — which is every state the writer itself produces, so
numbering resumes correctly across restarts by counting files — both
flush paths target a path that does not already exist and never touch
an existing archive file. -/
theorem C7_fresh_when_contiguous (disk : List ArchiveFile) (y m : Int)
    (hflat : chunkNums disk = List.range (flatNextNum disk))
    (hhive : hiveNums disk y m = List.range (hiveNextNum disk y m)) :
    ((none, flatNextNum disk) ∉ disk.map ArchiveFile.path) ∧
    ((some (y, m), hiveNextNum disk y m) ∉ disk.map ArchiveFile.path) := by
  constructor
  · intro hmem
    rw [path_none_mem_iff, hflat, List.mem_range] at hmem
    exact lt_irrefl _ hmem
  · intro hmem
    rw [path_some_mem_iff, hhive, List.mem_range] at hmem
    exact lt_irrefl _ hmem

theorem fetch_retries_no_raise (script : Nat → RemoteResponse)
    (h : ∀ i, script i = .transient ∨ ∃ v, script i = .ok v) :
    ∀ (remaining attempt : Nat) (acc : List ℚ),
      ∃ v, (HNFetcher.fetch_retries false script remaining attempt acc).result = .ok v := by
  intro remaining
  induction remaining with
  | zero => intro attempt acc; exact ⟨none, rfl⟩
  | succ n ih =>
    intro attempt acc
    rcases h (attempt + 1) with ht | ⟨v, hv⟩
    · simpa [HNFetcher.fetch_retries, ht] using ih (attempt + 1) _
    · exact ⟨v, by simp [HNFetcher.fetch_retries, hv]⟩

/-- C4 counterexample: an item whose fetch answers HTTP 500 makes
`fetch_item` raise `HTTPStatusError` to its caller (`raise_for_status`
is re-raised for every non-404 status), refuting "never raises and
never surfaces a failure". -/
theorem C4_fetch_item_raises : ¬ fetchItemNeverRaises := by
  intro h
  obtain ⟨v, hv⟩ := h script500
  have he : (HNFetcher.fetch_item false script500).result = .error (.httpStatus 500) := rfl
  rw [he] at hv
  exact Except.noConfusion hv

/-- C4 amended: a not-found (404) first response maps to absent with no
retries; a transient transport failure is retried up to 3 times with
backoff 0.5 s × attempt number (0.5, 1.0, 1.5) and then downgraded to
absent; and as long as every response is a success or a transient
failure, `fetch_item` never raises — but a non-404 HTTP status error
(on any attempt) propagates as an exception to the caller. -/
theorem C4_fetch_item_behaviour (script : Nat → RemoteResponse) :
    (script 0 = .statusErr 404 →
      HNFetcher.fetch_item false script = ⟨.ok none, []⟩) ∧
    ((∀ i, script i = .transient) →
      HNFetcher.fetch_item false script =
        ⟨.ok none, [1/2, 1, 3/2]⟩) ∧
    ((∀ i, script i = .transient ∨ ∃ v, script i = .ok v) →
      ∃ v, (HNFetcher.fetch_item false script).result = .ok v) := by
  refine ⟨?_, ?_, ?_⟩
  · intro h
    simp [HNFetcher.fetch_item, h]
  · intro h
    simp only [HNFetcher.fetch_item, if_false, Bool.false_eq_true, h,
      HNFetcher.fetch_retries]
    norm_num
  · intro h
    rcases h 0 with ht | ⟨v, hv⟩
    · simpa [HNFetcher.fetch_item, ht] using fetch_retries_no_raise script h 3 0 []
    · exact ⟨v, by simp [HNFetcher.fetch_item, hv]⟩

/-- Witness for C4's amended statement: the all-transient script is
downgraded to absent after sleeps 0.5, 1.0, 1.5, and a 404 maps to
absent immediately. -/
theorem C4_fetch_item_behaviour_witness :
    HNFetcher.fetch_item false (fun _ => .transient) =
      ⟨.ok none, [1/2, 1, 3/2]⟩ ∧
    HNFetcher.fetch_item false (fun _ => .statusErr 404) = ⟨.ok none, []⟩ :=
  ⟨(C4_fetch_item_behaviour _).2.1 fun _ => rfl,
   (C4_fetch_item_behaviour _).1 rfl⟩

theorem countP_set_of_get (l : List TaskPhase) (p : TaskPhase → Bool) :
    ∀ (i : Nat) (a b : TaskPhase), l.get? i = some a →
      (l.set i b).countP p + (if p a then 1 else 0) =
        l.countP p + (if p b then 1 else 0) := by
  induction l with
  | nil => intro i a b h; simp at h
  | cons hd tl ih =>
    intro i a b h
    cases i with
    | zero =>
      simp only [List.get?] at h
      injection h with h
      subst h
      simp only [List.set, List.countP_cons]
      cases hpa : p hd <;> cases hpb : p b <;> simp [hpa, hpb]
    | succ n =>
      simp only [List.get?] at h
      have := ih n a b h
      simp only [List.set, List.countP_cons]
      cases hph : p hd <;> simp [hph] <;> omega

theorem map_waiting_countP_inflight (ids : List Int) :
    (ids.map fun _ => TaskPhase.waiting).countP (· == TaskPhase.inflight) = 0 := by
  induction ids with
  | nil => rfl
  | cons hd tl ih => simp [List.countP_cons, ih]

theorem sem_step_invariant {s t : SemSystem} (hstep : SemStep s t) (N : Nat)
    (h : s.inFlight + s.avail = N) : t.inFlight + t.avail = N := by
  cases hstep with
  | acquire i hg ha =>
    have hc := countP_set_of_get s.tasks (· == TaskPhase.inflight) i _ .inflight hg
    simp only [SemSystem.inFlight] at h ⊢
    simp at hc
    omega
  | release i hg =>
    have hc := countP_set_of_get s.tasks (· == TaskPhase.inflight) i _ .done hg
    simp only [SemSystem.inFlight] at h ⊢
    simp at hc
    omega

theorem sem_invariant (N : Nat) (item_ids : List Int) (s : SemSystem)
    (h : SemReachable (HNFetcher.initSystem N item_ids) s) :
    s.inFlight + s.avail = N := by
  induction h with
  | refl =>
    simp [HNFetcher.initSystem, SemSystem.inFlight, map_waiting_countP_inflight]
  | step _ hstep ih => exact sem_step_invariant hstep N ih

/-- C10: every fetch task of a `fetch_items` call is admitted through
the one counting semaphore created with `concurrency = N` permits, so
in every reachable scheduler state the number of simultaneously
in-flight requests never exceeds N. -/
theorem C10_in_flight_bounded (N : Nat) (item_ids : List Int) (s : SemSystem)
    (h : SemReachable (HNFetcher.initSystem N item_ids) s) :
    s.inFlight ≤ N := by
  have := sem_invariant N item_ids s h
  omega

/-- Witness for C10: a state with one admitted in-flight task, reached
from three tasks under ceiling 3, is within the bound. -/
theorem C10_in_flight_bounded_witness :
    SemSystem.inFlight
        { avail := 2, tasks := [.inflight, .waiting, .waiting] } ≤ 3 :=
  C10_in_flight_bounded 3 [101, 102, 103] _
    (SemReachable.step SemReachable.refl
      (SemStep.acquire (HNFetcher.initSystem 3 [101, 102, 103]) 0 rfl (by decide)))

theorem foldl_firstKeysStep_replicate_mem (r : Row) (k : Int × Int)
    (hk : rowKey r = some k) :
    ∀ (n : Nat) (acc : List (Int × Int)), k ∈ acc →
      List.foldl firstKeysStep acc (List.replicate n r) = acc := by
  intro n
  induction n with
  | zero => intro acc _; rfl
  | succ m ih =>
    intro acc hmem
    rw [List.replicate_succ, List.foldl_cons,
      show firstKeysStep acc r = acc from by simp [firstKeysStep, hk, hmem]]
    exact ih acc hmem

theorem foldl_firstKeysStep_replicate_new (r : Row) (k : Int × Int)
    (hk : rowKey r = some k) (n : Nat) (hn : 0 < n)
    (acc : List (Int × Int)) (hmem : k ∉ acc) :
    List.foldl firstKeysStep acc (List.replicate n r) = acc ++ [k] := by
  obtain ⟨m, rfl⟩ : ∃ m, n = m + 1 := ⟨n - 1, by omega⟩
  rw [List.replicate_succ, List.foldl_cons,
    show firstKeysStep acc r = acc ++ [k] from by simp [firstKeysStep, hk, hmem]]
  exact foldl_firstKeysStep_replicate_mem r k hk m _ (by simp)

theorem filter_replicate_pos (p : Row → Bool) (r : Row) (hp : p r = true) :
    ∀ n : Nat, (List.replicate n r).filter p = List.replicate n r := by
  intro n
  induction n with
  | zero => rfl
  | succ m ih => rw [List.replicate_succ, List.filter_cons]; simp [hp, ih]

theorem filter_replicate_neg (p : Row → Bool) (r : Row) (hp : p r = false) :
    ∀ n : Nat, (List.replicate n r).filter p = [] := by
  intro n
  induction n with
  | zero => rfl
  | succ m ih => rw [List.replicate_succ, List.filter_cons]; simp [hp, ih]

theorem flushHiveStep_eq (w' : ParquetWriter) (k : Int × Int) :
    flushHiveStep w' k =
      { w' with disk := w'.disk ++
          [.hiveData k.1 k.2
            ((w'.disk.filter (ArchiveFile.inPartition k.1 k.2)).length)
            (w'.buffer.filter fun r => rowKey r == some k)] } := rfl

theorem flushHiveStep_buffer (w' : ParquetWriter) (k : Int × Int) :
    (flushHiveStep w' k).buffer = w'.buffer := rfl

theorem foldl_flushHiveStep_mono (ks : List (Int × Int)) :
    ∀ (w' : ParquetWriter) (f : ArchiveFile), f ∈ w'.disk →
      f ∈ (List.foldl flushHiveStep w' ks).disk := by
  induction ks with
  | nil => intro w' f hf; exact hf
  | cons k rest ih =>
    intro w' f hf
    rw [List.foldl_cons]
    refine ih _ f ?_
    rw [flushHiveStep_eq]
    exact List.mem_append_left _ hf

theorem flush_hive_writes (w : ParquetWriter) :
    ∀ k ∈ firstKeys w.buffer, ∃ n,
      ArchiveFile.hiveData k.1 k.2 n
          (w.buffer.filter fun row => rowKey row == some k)
        ∈ w.flush_hive.disk := by
  rw [ParquetWriter.flush_hive]
  have main : ∀ (ks : List (Int × Int)) (w' : ParquetWriter), w'.buffer = w.buffer →
      ∀ k ∈ ks, ∃ n, ArchiveFile.hiveData k.1 k.2 n
          (w.buffer.filter fun row => rowKey row == some k)
        ∈ (List.foldl flushHiveStep w' ks).disk := by
    intro ks
    induction ks with
    | nil => intro w' _ k hk; exact absurd hk (List.not_mem_nil k)
    | cons k0 rest ih =>
      intro w' hb k hk
      rw [List.foldl_cons]
      rcases List.mem_cons.mp hk with hk0 | hkrest
      · subst hk0
        refine ⟨(w'.disk.filter (ArchiveFile.inPartition k.1 k.2)).length, ?_⟩
        refine foldl_flushHiveStep_mono rest _ _ ?_
        rw [flushHiveStep_eq, ← hb]
        exact List.mem_append_right _ (List.mem_cons_self _ _)
      · exact ih _ (by rw [flushHiveStep_buffer, hb]) k hkrest
  exact main (firstKeys w.buffer) w rfl

theorem add_item_flush_eq (w : ParquetWriter) (item : Option RawItem) (r : Row)
    (hr : item_to_row item (decide (w.partition_style = "hive")) = some r)
    (hge : bufferSize ≤ (w.buffer ++ [r]).length) :
    w.add_item item = ParquetWriter.flush { w with buffer := w.buffer ++ [r] } := by
  simp only [ParquetWriter.add_item, hr]
  rw [if_pos hge]

theorem add_item_append_eq (w : ParquetWriter) (item : Option RawItem) (r : Row)
    (hr : item_to_row item (decide (w.partition_style = "hive")) = some r)
    (hlt : (w.buffer ++ [r]).length < bufferSize) :
    w.add_item item = { w with buffer := w.buffer ++ [r] } := by
  simp only [ParquetWriter.add_item, hr]
  rw [if_neg (by omega)]

theorem flush_hive_of_style (w : ParquetWriter) (hs : w.partition_style = "hive")
    (hne : w.buffer ≠ []) :
    w.flush = { w.flush_hive with buffer := [] } := by
  simp only [ParquetWriter.flush]
  rw [if_neg hne, if_pos hs]

theorem firstKeys_buf49999 :
    firstKeys (List.replicate 49999 rowA ++ [rowB]) =
      [((2023 : Int), (5 : Int)), ((2024 : Int), (12 : Int))] := by
  rw [firstKeys, List.foldl_append,
    foldl_firstKeysStep_replicate_new rowA (2023, 5) (by decide) 49999 (by decide)
      [] (List.not_mem_nil _)]
  rw [List.foldl_cons, List.foldl_nil, List.nil_append,
    show firstKeysStep [((2023 : Int), (5 : Int))] rowB =
      [((2023 : Int), (5 : Int)), ((2024 : Int), (12 : Int))] from by decide]

theorem add_item_wC5 :
    wC5.add_item (some itB) =
      { partition_style := "hive", buffer := [],
        disk := [.hiveData 2023 5 0 (List.replicate 49999 rowA),
                 .hiveData 2024 12 0 [rowB]] } := by
  have hlen : (wC5.buffer ++ [rowB]).length = 50000 := by
    rw [show wC5.buffer = List.replicate 49999 rowA from rfl,
      List.length_append, List.length_replicate]
    rfl
  rw [add_item_flush_eq wC5 (some itB) rowB (by decide) (by rw [hlen]; exact Nat.le_refl _)]
  rw [flush_hive_of_style _ rfl (by
    intro hnil
    have := congrArg List.length hnil
    rw [show ({ wC5 with buffer := wC5.buffer ++ [rowB] } : ParquetWriter).buffer
        = wC5.buffer ++ [rowB] from rfl, hlen] at this
    exact absurd this (by decide))]
  rw [show ({ wC5 with buffer := wC5.buffer ++ [rowB] } : ParquetWriter).flush_hive
      = List.foldl flushHiveStep { wC5 with buffer := wC5.buffer ++ [rowB] }
          (firstKeys (List.replicate 49999 rowA ++ [rowB])) from rfl]
  rw [firstKeys_buf49999, List.foldl_cons, List.foldl_cons, List.foldl_nil]
  rw [show flushHiveStep { wC5 with buffer := wC5.buffer ++ [rowB] } (2023, 5) =
      { partition_style := "hive", buffer := List.replicate 49999 rowA ++ [rowB],
        disk := [.hiveData 2023 5 0 (List.replicate 49999 rowA)] } from by
    rw [flushHiveStep_eq]
    rw [show ({ wC5 with buffer := wC5.buffer ++ [rowB] } : ParquetWriter).buffer
        = List.replicate 49999 rowA ++ [rowB] from rfl]
    rw [List.filter_append, filter_replicate_pos _ rowA (by decide) 49999,
      show List.filter (fun r => rowKey r == some ((2023 : Int), (5 : Int))) [rowB] = []
        from by decide, List.append_nil]
    rfl]
  rw [show flushHiveStep
      ({ partition_style := "hive", buffer := List.replicate 49999 rowA ++ [rowB],
         disk := [.hiveData 2023 5 0 (List.replicate 49999 rowA)] } : ParquetWriter)
      (2024, 12) =
      { partition_style := "hive", buffer := List.replicate 49999 rowA ++ [rowB],
        disk := [.hiveData 2023 5 0 (List.replicate 49999 rowA),
                 .hiveData 2024 12 0 [rowB]] } from by
    rw [flushHiveStep_eq]
    rw [show ({ partition_style := "hive",
                buffer := List.replicate 49999 rowA ++ [rowB],
                disk := [ArchiveFile.hiveData 2023 5 0 (List.replicate 49999 rowA)] } :
          ParquetWriter).buffer
        = List.replicate 49999 rowA ++ [rowB] from rfl]
    rw [List.filter_append, filter_replicate_neg _ rowA (by decide) 49999,
      show List.filter (fun r => rowKey r == some ((2024 : Int), (12 : Int))) [rowB] = [rowB]
        from by decide, List.nil_append]
    rfl]

/-- C5 counterexample: the writer keeps one shared buffer, so with
49,999 rows of partition (2023, 5) buffered, adding a single row of
partition (2024, 12) pushes the *total* to the 50,000 threshold and
flushes **both** groups — leaving on disk a file for (2024, 12) with
just one row, although that group never individually reached the
threshold.  This refutes the claimed per-group buffers with per-group
thresholds. -/
theorem C5_no_per_group_buffers : ¬ hiveFlushPerGroupThreshold := by
  intro h
  have hmem : ArchiveFile.hiveData 2024 12 0 [rowB] ∈ (wC5.add_item (some itB)).disk := by
    rw [add_item_wC5]
    exact List.mem_cons_of_mem _ (List.mem_cons_self _ _)
  have hcase := h wC5 (some itB) rfl _ hmem
  rcases hcase with h1 | h1
  · rw [show wC5.disk = [] from rfl] at h1
    exact List.not_mem_nil _ h1
  · exact absurd h1 (by decide)

/-- C5 amended: the hive writer keeps a single shared buffer.  While
the total stays below the 50,000-row threshold an add only appends to
the buffer and writes nothing; once the total reaches the threshold the
whole buffer is flushed at once: the buffer empties and **every**
(year, month) group present — whatever its individual size — gets a
file in its own `year=/month=` subdirectory containing exactly that
group's rows (rows lacking a timestamp are dropped). -/
theorem C5_shared_buffer_total_threshold (w : ParquetWriter) (item : Option RawItem)
    (r : Row) (hs : w.partition_style = "hive")
    (hr : item_to_row item (decide (w.partition_style = "hive")) = some r) :
    ((w.buffer ++ [r]).length < bufferSize →
      (w.add_item item).disk = w.disk ∧
      (w.add_item item).buffer = w.buffer ++ [r]) ∧
    (bufferSize ≤ (w.buffer ++ [r]).length →
      (w.add_item item).buffer = [] ∧
      ∀ k ∈ firstKeys (w.buffer ++ [r]), ∃ n,
        ArchiveFile.hiveData k.1 k.2 n
            ((w.buffer ++ [r]).filter fun row => rowKey row == some k)
          ∈ (w.add_item item).disk) := by
  constructor
  · intro hlt
    rw [add_item_append_eq w item r hr hlt]
    exact ⟨rfl, rfl⟩
  · intro hge
    rw [add_item_flush_eq w item r hr hge]
    have hne : ({ w with buffer := w.buffer ++ [r] } : ParquetWriter).buffer ≠ [] := by
      rw [show ({ w with buffer := w.buffer ++ [r] } : ParquetWriter).buffer
          = w.buffer ++ [r] from rfl]
      intro hnil
      rcases List.append_eq_nil.mp hnil with ⟨_, h2⟩
      exact List.cons_ne_nil _ _ h2
    rw [flush_hive_of_style _ (by rw [show ({ w with buffer := w.buffer ++ [r] } :
        ParquetWriter).partition_style = w.partition_style from rfl]; exact hs) hne]
    refine ⟨rfl, ?_⟩
    intro k hk
    have := flush_hive_writes { w with buffer := w.buffer ++ [r] } k (by
      rw [show ({ w with buffer := w.buffer ++ [r] } : ParquetWriter).buffer
          = w.buffer ++ [r] from rfl]
      exact hk)
    obtain ⟨n, hn⟩ := this
    exact ⟨n, hn⟩

/-- Witness for C5's amended statement: a below-threshold add on an
empty hive writer appends the encoded row and writes nothing. -/
theorem C5_shared_buffer_total_threshold_witness :
    (((⟨"hive", [], []⟩ : ParquetWriter).add_item (some itA)).disk = ([] : List ArchiveFile)) ∧
    (((⟨"hive", [], []⟩ : ParquetWriter).add_item (some itA)).buffer = [] ++ [rowA]) :=
  (C5_shared_buffer_total_threshold ⟨"hive", [], []⟩ (some itA) rowA rfl (by decide)).1
    (by decide)

/-- C1: demonstration of the checkpoint-vs-disk divergence.  With
items 1..3 existing remotely (`--end 3`), a fresh run whose
cancellation signal is observed after the first processed item still
executes `checkpoint.update(batch_end - 1, ...)` for the whole batch:
the run flushes item 1, persists `last_fetched_id = 3`, and exits —
items 2 and 3 exist remotely, were never written, and will never be
re-requested.  Flush does precede save, but the saved checkpoint
claims ids that were not durably written: the mixed state is
observable after shutdown. -/
theorem C1_midbatch_cancel_claims_unfetched_ids :
    ((runFetch remote3 (some 1) 10000 false none (some 3) 3 none [] "t").cpFile.map
        Checkpoint.last_fetched_id = some 3) ∧
    remote3 2 = some it2 ∧
    diskHasId (runFetch remote3 (some 1) 10000 false none (some 3) 3 none [] "t").writer.disk 2
      = false ∧
    diskHasId (runFetch remote3 (some 1) 10000 false none (some 3) 3 none [] "t").writer.disk 1
      = true := by
  decide

theorem mem_intRange_lower {a b i : Int} (h : i ∈ intRange a b) : a ≤ i := by
  rw [intRange] at h
  obtain ⟨n, _, rfl⟩ := List.mem_map.mp h
  exact le_add_of_nonneg_right (Int.natCast_nonneg n)

theorem intRange_head {a b : Int} (h : a < b) : (intRange a b).head? = some a := by
  rw [intRange]
  have h1 : (b - a).toNat = ((b - a).toNat - 1) + 1 := by omega
  rw [h1, List.range_succ_eq_map]
  simp

theorem batchStep_current (remote : Int → Option RawItem) (cancelAt : Option Nat)
    (batch_size max_id : Int) (now : String) (s : RunState) :
    (batchStep remote cancelAt batch_size max_id now s).current
      = min (s.current + batch_size) (max_id + 1) := rfl

theorem batchStep_requested (remote : Int → Option RawItem) (cancelAt : Option Nat)
    (batch_size max_id : Int) (now : String) (s : RunState) :
    (batchStep remote cancelAt batch_size max_id now s).requested
      = s.requested ++ [intRange s.current (min (s.current + batch_size) (max_id + 1))] := rfl

theorem loopAux_requested_lower (remote : Int → Option RawItem) (cancelAt : Option Nat)
    (batch_size max_id : Int) (now : String) (c : Int) (hbs : 0 ≤ batch_size) :
    ∀ (fuel : Nat) (s : RunState), c ≤ s.current →
      (∀ ids ∈ s.requested, ∀ i ∈ ids, c ≤ i) →
      c ≤ (loopAux remote cancelAt batch_size max_id now fuel s).current ∧
      ∀ ids ∈ (loopAux remote cancelAt batch_size max_id now fuel s).requested,
        ∀ i ∈ ids, c ≤ i := by
  intro fuel
  induction fuel with
  | zero => intro s h1 h2; exact ⟨h1, h2⟩
  | succ n ih =>
    intro s h1 h2
    simp only [loopAux]
    by_cases hc : s.current ≤ max_id ∧ eventSet cancelAt s.t = false
    · rw [if_pos hc]
      refine ih (batchStep remote cancelAt batch_size max_id now s) ?_ ?_
      · rw [batchStep_current]
        have := hc.1
        omega
      · intro ids hids i hi
        rw [batchStep_requested] at hids
        rcases List.mem_append.mp hids with hl | hr
        · exact h2 ids hl i hi
        · have hids' := List.mem_singleton.mp hr
          subst hids'
          exact le_trans h1 (mem_intRange_lower hi)
    · rw [if_neg hc]; exact ⟨h1, h2⟩

theorem loopAux_requested_head (remote : Int → Option RawItem) (cancelAt : Option Nat)
    (batch_size max_id : Int) (now : String) :
    ∀ (fuel : Nat) (s : RunState), s.requested ≠ [] →
      (loopAux remote cancelAt batch_size max_id now fuel s).requested.head?
        = s.requested.head? := by
  intro fuel
  induction fuel with
  | zero => intro s _; rfl
  | succ n ih =>
    intro s hne
    simp only [loopAux]
    by_cases hc : s.current ≤ max_id ∧ eventSet cancelAt s.t = false
    · rw [if_pos hc]
      obtain ⟨a, as, hl⟩ : ∃ a as, s.requested = a :: as := by
        cases hcase : s.requested with
        | nil => exact absurd hcase hne
        | cons a as => exact ⟨a, as, rfl⟩
      rw [ih _ (by rw [batchStep_requested, hl]; exact List.cons_ne_nil _ _),
        batchStep_requested, hl]
      simp
    · rw [if_neg hc]

/-- C8: a run resumed from a checkpoint with `last_fetched_id = K`
(and no explicit start override) starts at `K + 1`: every id it hands
to the fetcher is ≥ K + 1, and — given a positive batch size, a
non-empty remaining range, and no cancellation before the first
batch — the very first requested id is exactly K + 1, with batches
proceeding upward from there. -/
theorem C8_resume_starts_at_K_plus_one (K : Int) (rec : CheckpointRecord)
    (remote : Int → Option RawItem) (cancelAt : Option Nat) (batch_size : Int)
    (endOpt : Option Int) (api_max_id : Int) (initialDisk : List ArchiveFile)
    (now : String) (hK : rec.last_fetched_id = K) (hbs : 1 ≤ batch_size)
    (hmax : K + 1 ≤ endOpt.getD api_max_id) (hcancel : eventSet cancelAt 0 = false) :
    (∀ ids ∈ (runFetch remote cancelAt batch_size true none endOpt api_max_id
        (some rec) initialDisk now).requested, ∀ i ∈ ids, K + 1 ≤ i) ∧
    (runFetch remote cancelAt batch_size true none endOpt api_max_id
        (some rec) initialDisk now).requested.head?.bind List.head? = some (K + 1) := by
  subst hK
  set maxId : Int := endOpt.getD api_max_id with hmaxId
  set s0 : RunState :=
    { current := rec.last_fetched_id + 1, t := 0,
      writer := { partition_style := rec.partition_style.getD "hive",
                  buffer := [], disk := initialDisk },
      cp := { last_fetched_id := rec.last_fetched_id,
              max_item_id := maxId,
              items_fetched := rec.items_fetched,
              items_written := rec.items_written,
              started_at := rec.started_at,
              updated_at := rec.updated_at,
              partition_style := rec.partition_style.getD "hive" },
      cpFile := CheckpointManager.load (some rec),
      requested := [] } with hs0
  have hreq : (runFetch remote cancelAt batch_size true none endOpt api_max_id
      (some rec) initialDisk now).requested
      = (loopAux remote cancelAt batch_size maxId now
          ((maxId + 1 - (rec.last_fetched_id + 1)).toNat + 1) s0).requested := rfl
  rw [hreq]
  constructor
  · intro ids hids i hi
    refine (loopAux_requested_lower remote cancelAt batch_size maxId now
      (rec.last_fetched_id + 1) (by omega) _ s0 (le_refl _) ?_).2 ids hids i hi
    intro ids' h'
    exact absurd h' (List.not_mem_nil _)
  · have hstep : loopAux remote cancelAt batch_size maxId now
        ((maxId + 1 - (rec.last_fetched_id + 1)).toNat + 1) s0
        = loopAux remote cancelAt batch_size maxId now
            ((maxId + 1 - (rec.last_fetched_id + 1)).toNat)
            (batchStep remote cancelAt batch_size maxId now s0) := by
      simp only [loopAux]
      rw [if_pos ⟨hmax, hcancel⟩]
    rw [hstep,
      loopAux_requested_head remote cancelAt batch_size maxId now _ _
        (by rw [batchStep_requested, hs0]; exact List.cons_ne_nil _ _)]
    rw [show (batchStep remote cancelAt batch_size maxId now s0).requested.head?
        = some (intRange (rec.last_fetched_id + 1)
            (min (rec.last_fetched_id + 1 + batch_size) (maxId + 1))) from by
      rw [batchStep_requested, hs0]
      rfl]
    show (intRange (rec.last_fetched_id + 1)
        (min (rec.last_fetched_id + 1 + batch_size) (maxId + 1))).head?
      = some (rec.last_fetched_id + 1)
    refine intRange_head (lt_min ?_ ?_) <;> omega

/-- Witness for C8: resuming from a checkpoint at id 5 with batch size
2 over the range 6..8 requests only ids ≥ 6, the first being exactly 6. -/
theorem C8_resume_starts_at_K_plus_one_witness :
    (∀ ids ∈ (runFetch (fun _ => none) none 2 true none (some 8) 8
        (some recW) [] "t").requested, ∀ i ∈ ids, (5 : Int) + 1 ≤ i) ∧
    (runFetch (fun _ => none) none 2 true none (some 8) 8
        (some recW) [] "t").requested.head?.bind List.head? = some ((5 : Int) + 1) :=
  C8_resume_starts_at_K_plus_one 5 recW (fun _ => none) none 2 (some 8) 8 [] "t"
    rfl (by decide) (by decide) rfl

theorem foldl_flushHiveStep_style (ks : List (Int × Int)) :
    ∀ w' : ParquetWriter,
      (List.foldl flushHiveStep w' ks).partition_style = w'.partition_style := by
  induction ks with
  | nil => intro w'; rfl
  | cons k rest ih => intro w'; rw [List.foldl_cons, ih]; rfl

theorem flush_style (w : ParquetWriter) :
    w.flush.partition_style = w.partition_style := by
  simp only [ParquetWriter.flush]
  by_cases hb : w.buffer = []
  · rw [if_pos hb]
  · rw [if_neg hb]
    by_cases hs : w.partition_style = "hive"
    · rw [if_pos hs]
      exact foldl_flushHiveStep_style _ w
    · rw [if_neg hs]
      rfl

theorem add_item_style (w : ParquetWriter) (item : Option RawItem) :
    (w.add_item item).partition_style = w.partition_style := by
  simp only [ParquetWriter.add_item]
  split
  · rfl
  · split
    · rw [flush_style]
    · rfl

theorem add_items_style (items : List (Option RawItem)) :
    ∀ w : ParquetWriter, (w.add_items items).partition_style = w.partition_style := by
  induction items with
  | nil => intro w; rfl
  | cons it rest ih =>
    intro w
    rw [show w.add_items (it :: rest) = (w.add_item it).add_items rest from rfl,
      ih, add_item_style]

theorem foldl_flushHiveStep_diskOK (d0 : List ArchiveFile) (ks : List (Int × Int)) :
    ∀ w' : ParquetWriter, (∀ f ∈ w'.disk, f ∈ d0 ∨ f.isHive = true) →
      ∀ f ∈ (List.foldl flushHiveStep w' ks).disk, f ∈ d0 ∨ f.isHive = true := by
  induction ks with
  | nil => intro w' h; exact h
  | cons k rest ih =>
    intro w' h
    rw [List.foldl_cons]
    refine ih _ ?_
    intro f hf
    rw [flushHiveStep_eq] at hf
    rcases List.mem_append.mp hf with h1 | h1
    · exact h f h1
    · have h2 := List.mem_singleton.mp h1
      subst h2
      right
      rfl

theorem flush_diskOK (d0 : List ArchiveFile) (w : ParquetWriter)
    (hs : w.partition_style = "hive")
    (h : ∀ f ∈ w.disk, f ∈ d0 ∨ f.isHive = true) :
    ∀ f ∈ w.flush.disk, f ∈ d0 ∨ f.isHive = true := by
  intro f hf
  simp only [ParquetWriter.flush] at hf
  by_cases hb : w.buffer = []
  · rw [if_pos hb] at hf
    exact h f hf
  · rw [if_neg hb, if_pos hs] at hf
    exact foldl_flushHiveStep_diskOK d0 _ w h f hf

theorem add_item_diskOK (d0 : List ArchiveFile) (w : ParquetWriter)
    (item : Option RawItem) (hs : w.partition_style = "hive")
    (h : ∀ f ∈ w.disk, f ∈ d0 ∨ f.isHive = true) :
    ∀ f ∈ (w.add_item item).disk, f ∈ d0 ∨ f.isHive = true := by
  intro f hf
  simp only [ParquetWriter.add_item] at hf
  split at hf
  · exact h f hf
  · split at hf
    · refine flush_diskOK d0 _ ?_ ?_ f hf
      · exact hs
      · exact h
    · exact h f hf

theorem add_items_diskOK (d0 : List ArchiveFile) (items : List (Option RawItem)) :
    ∀ w : ParquetWriter, w.partition_style = "hive" →
      (∀ f ∈ w.disk, f ∈ d0 ∨ f.isHive = true) →
      ∀ f ∈ (w.add_items items).disk, f ∈ d0 ∨ f.isHive = true := by
  induction items with
  | nil => intro w _ h; exact h
  | cons it rest ih =>
    intro w hs h
    rw [show w.add_items (it :: rest) = (w.add_item it).add_items rest from rfl]
    exact ih _ (by rw [add_item_style]; exact hs) (add_item_diskOK d0 w it hs h)

theorem batchStep_writer_style (remote : Int → Option RawItem) (cancelAt : Option Nat)
    (batch_size max_id : Int) (now : String) (s : RunState) :
    (batchStep remote cancelAt batch_size max_id now s).writer.partition_style
      = s.writer.partition_style := by
  simp only [batchStep, ParquetWriter.flush_all]
  rw [flush_style]
  split
  · rfl
  · rw [add_items_style]

theorem batchStep_writer_diskOK (d0 : List ArchiveFile) (remote : Int → Option RawItem)
    (cancelAt : Option Nat) (batch_size max_id : Int) (now : String) (s : RunState)
    (hs : s.writer.partition_style = "hive")
    (h : ∀ f ∈ s.writer.disk, f ∈ d0 ∨ f.isHive = true) :
    ∀ f ∈ (batchStep remote cancelAt batch_size max_id now s).writer.disk,
      f ∈ d0 ∨ f.isHive = true := by
  simp only [batchStep, ParquetWriter.flush_all]
  intro f hf
  refine flush_diskOK d0 _ ?_ ?_ f hf
  · split
    · exact hs
    · rw [add_items_style]; exact hs
  · split
    · exact h
    · exact add_items_diskOK d0 _ s.writer hs h

theorem loopAux_writer_invariant (d0 : List ArchiveFile) (remote : Int → Option RawItem)
    (cancelAt : Option Nat) (batch_size max_id : Int) (now : String) :
    ∀ (fuel : Nat) (s : RunState), s.writer.partition_style = "hive" →
      (∀ f ∈ s.writer.disk, f ∈ d0 ∨ f.isHive = true) →
      (loopAux remote cancelAt batch_size max_id now fuel s).writer.partition_style = "hive" ∧
      ∀ f ∈ (loopAux remote cancelAt batch_size max_id now fuel s).writer.disk,
        f ∈ d0 ∨ f.isHive = true := by
  intro fuel
  induction fuel with
  | zero => intro s hs h; exact ⟨hs, h⟩
  | succ n ih =>
    intro s hs h
    simp only [loopAux]
    by_cases hc : s.current ≤ max_id ∧ eventSet cancelAt s.t = false
    · rw [if_pos hc]
      exact ih _ (by rw [batchStep_writer_style]; exact hs)
        (batchStep_writer_diskOK d0 remote cancelAt batch_size max_id now s hs h)
    · rw [if_neg hc]; exact ⟨hs, h⟩

/-- C9: the partition style is sticky across resume.  Loading a
checkpoint record that lacks `partition_style` (or records "hive")
yields a checkpoint with style "hive", and a resume run against such a
record writes every file it adds to the output directory under the
hive (`year=/month=`) layout, whatever files were already there. -/
theorem C9_partition_style_sticky (rec : CheckpointRecord)
    (hstyle : rec.partition_style = none ∨ rec.partition_style = some "hive")
    (remote : Int → Option RawItem) (cancelAt : Option Nat) (batch_size : Int)
    (endOpt : Option Int) (api_max_id : Int) (initialDisk : List ArchiveFile)
    (now : String) :
    ((CheckpointManager.load (some rec)).map Checkpoint.partition_style = some "hive") ∧
    ∀ f ∈ (runFetch remote cancelAt batch_size true none endOpt api_max_id
        (some rec) initialDisk now).writer.disk,
      f ∈ initialDisk ∨ f.isHive = true := by
  have hgetD : rec.partition_style.getD "hive" = "hive" := by
    rcases hstyle with h | h <;> rw [h] <;> rfl
  refine ⟨?_, ?_⟩
  · rcases hstyle with h | h <;> simp [CheckpointManager.load, h]
  · set maxId : Int := endOpt.getD api_max_id with hmaxId
    set s0 : RunState :=
      { current := rec.last_fetched_id + 1, t := 0,
        writer := { partition_style := rec.partition_style.getD "hive",
                    buffer := [], disk := initialDisk },
        cp := { last_fetched_id := rec.last_fetched_id,
                max_item_id := maxId,
                items_fetched := rec.items_fetched,
                items_written := rec.items_written,
                started_at := rec.started_at,
                updated_at := rec.updated_at,
                partition_style := rec.partition_style.getD "hive" },
        cpFile := CheckpointManager.load (some rec),
        requested := [] } with hs0
    have hw : (runFetch remote cancelAt batch_size true none endOpt api_max_id
        (some rec) initialDisk now).writer
        = (loopAux remote cancelAt batch_size maxId now
            ((maxId + 1 - (rec.last_fetched_id + 1)).toNat + 1) s0).writer.flush_all := rfl
    rw [hw]
    have hmain := loopAux_writer_invariant initialDisk remote cancelAt batch_size maxId now
      ((maxId + 1 - (rec.last_fetched_id + 1)).toNat + 1) s0
      (by rw [hs0]; exact hgetD)
      (by rw [hs0]; intro f hf; exact Or.inl hf)
    exact flush_diskOK initialDisk _ hmain.1 hmain.2

/-- Witness for C9 on an old-format record lacking `partition_style`,
resuming over an already-exhausted range with one pre-existing flat
file on disk. -/
theorem C9_partition_style_sticky_witness :
    ((CheckpointManager.load (some recHive)).map Checkpoint.partition_style = some "hive") ∧
    ∀ f ∈ (runFetch (fun _ => none) none 2 true none (some 9) 9
        (some recHive) [ArchiveFile.flatChunk 0 []] "t").writer.disk,
      f ∈ [ArchiveFile.flatChunk 0 []] ∨ f.isHive = true :=
  C9_partition_style_sticky recHive (Or.inl rfl) (fun _ => none) none 2 (some 9) 9
    [ArchiveFile.flatChunk 0 []] "t"

/-- Witness for C7's amended statement on a contiguously numbered
directory holding one flat chunk and one hive file. -/
theorem C7_fresh_when_contiguous_witness :
    ((none, flatNextNum [ArchiveFile.flatChunk 0 [], ArchiveFile.hiveData 2024 12 0 []]) ∉
      (List.map ArchiveFile.path [ArchiveFile.flatChunk 0 [], ArchiveFile.hiveData 2024 12 0 []])) ∧
    ((some ((2024 : Int), (12 : Int)),
        hiveNextNum [ArchiveFile.flatChunk 0 [], ArchiveFile.hiveData 2024 12 0 []] 2024 12) ∉
      (List.map ArchiveFile.path [ArchiveFile.flatChunk 0 [], ArchiveFile.hiveData 2024 12 0 []])) :=
  C7_fresh_when_contiguous _ 2024 12 (by decide) (by decide)

end HnSql
